import Mathlib

/-!
Verification of the avocado safeloader core (src/avocado/core/safeloader/core.py).

The file shallowly embeds the discovery functions of core.py.  The two
collaborator modules that core.py imports but that are not part of the
source tree, safeloader.docstring and safeloader.module, are modelled from
the spec (sections 4.1 and 4.2): docstrings are abstracted by their parsed
directive sets, and PythonModule by its parsed data plus an oracle for
is_matching_klass.  File paths are represented as lists of components, and
the file system plus the importlib PathFinder service are an explicit
environment.  Because _examine_class recurses through an unguarded
inheritance graph, the embedding threads an explicit fuel counter; a
result of none means the fuel ran out (the Python function would still be
recursing at that depth).
-/

/-- Modelled from the spec: the directive set parsed from a docstring by
safeloader.docstring (not in src).  An absent docstring is represented by
the empty directive set, as specified in section 4.2 of the spec. -/
structure DirectiveSet where
  enable : Bool := false
  disable : Bool := false
  recursive : Bool := false
  tags : List String := []
  requirements : List String := []
deriving Repr, DecidableEq, Inhabited

/-- A function definition statement in a class body (ast.FunctionDef),
keeping only the fields core.py reads: the name and the docstring. -/
structure FunctionDef where
  name : String
  docstring : DirectiveSet
deriving Repr, DecidableEq

/-- A statement of a class body: either a function definition or any other
statement, which get_methods_info ignores. -/
inductive Stmt where
  | func (f : FunctionDef)
  | other
deriving Repr, DecidableEq

/-- A base-class reference of a class statement, as core.py distinguishes
them: a plain ast.Name, a one-level ast.Attribute whose value is a Name
(parent.Class), or anything else (multi level, unsupported). -/
inductive BaseRef where
  | name (id : String)
  | attr (valueId : String) (attrName : String)
  | unsupportedRef
deriving Repr, DecidableEq

/-- A top-level class definition (ast.ClassDef) with the fields used by
core.py: name, parsed docstring directives, base list and body. -/
structure ClassDef where
  name : String
  docstring : DirectiveSet
  bases : List BaseRef
  body : List Stmt
deriving Repr, DecidableEq

/-- Modelled from the spec: the parsed data of safeloader.module's
PythonModule (not in src): the ordered top-level classes, the import table
mapping a local alias to the components of the path stored for it, and the
is_matching_klass structural-match oracle of spec section 4.1. -/
structure PyModuleData where
  classes : List ClassDef
  importedObjects : List (String × List String)
  isMatchingKlass : ClassDef → Bool

/-- Modelled from the spec: the world a discovery call runs in.  modules
gives the parse result of every path (section 4.1); findSpec is the
module-search service of section 6 (importlib PathFinder.find_spec);
sysPath is the ambient sys.path. -/
structure DiscoveryEnv where
  modules : List String → PyModuleData
  findSpec : String → List (List String) → Option (List String)
  sysPath : List (List String)

/-- The (name, tags, requirements) triple that core.py records per test
method. -/
abbrev MethodInfo := String × List String × List String

/-- Decidable equality of result mappings, registered stepwise so that
instance search stays below its size limit on this nested type. -/
instance : DecidableEq (List (String × List MethodInfo)) := instDecidableEqList

instance : DecidableEq (List (String × List MethodInfo) × List String) :=
  instDecidableEqProd

instance : DecidableEq (Option (List (String × List MethodInfo) × List String)) :=
  fun a b => Option.instDecidableEq a b

/-- The type of the determine_match callables of core.py. -/
abbrev DetermineMatch := PyModuleData → ClassDef → DirectiveSet → Bool

/-- The type of the recursive examiner closure: path, class name, current
match flag; none means the fuel ran out. -/
abbrev ExamineFn :=
  List String → String → Bool → Option (List MethodInfo × List String × Bool)

/-- Whether the first character list is a prefix of the second. -/
def isPrefixCharList : List Char → List Char → Bool
  | [], _ => true
  | _ :: _, [] => false
  | c :: cs, d :: ds => c == d && isPrefixCharList cs ds

/-- Python str.startswith, stated over the character lists of the two
strings (String.startsWith of the library is compiled by well-founded
recursion and does not evaluate inside proofs). -/
def strStartsWith (s pre : String) : Bool :=
  isPrefixCharList pre.data s.data

/-- Python set.add on the string sets (disabled names) of core.py. -/
def setAdd (s : List String) (x : String) : List String :=
  if s.contains x then s else s ++ [x]

/-- Python set.update on the string sets of core.py. -/
def setUnion (a b : List String) : List String :=
  b.foldl setAdd a

/-- Python set.update merging method tags with class tags
(mt_tags.update(class_tags) at core.py line 30). -/
def tagUnion (a b : List String) : List String :=
  a ++ b.filter (fun t => !(a.contains t))

/-- Loop of get_methods_info (core.py lines 24-37) with its accumulator:
collect every test-prefixed FunctionDef, merging class-level tags and
requirements, deduplicating by method name. -/
def get_methods_info_go (class_tags class_requirements : List String) :
    List Stmt → List MethodInfo → List MethodInfo
  | [], methods_info => methods_info
  | st :: sts, methods_info =>
    match st with
    | Stmt.func f =>
      if strStartsWith f.name ("test") then
        if (methods_info.map (fun mi => mi.1)).contains f.name then
          get_methods_info_go class_tags class_requirements sts methods_info
        else
          get_methods_info_go class_tags class_requirements sts
            (methods_info ++ [(f.name,
              tagUnion f.docstring.tags class_tags,
              f.docstring.requirements ++ class_requirements)])
      else get_methods_info_go class_tags class_requirements sts methods_info
    | Stmt.other => get_methods_info_go class_tags class_requirements sts methods_info

/-- get_methods_info (core.py lines 13-39). -/
def get_methods_info (statement_body : List Stmt)
    (class_tags class_requirements : List String) : List MethodInfo :=
  get_methods_info_go class_tags class_requirements statement_body []

/-- _extend_test_list (core.py lines 42-46): append each new test whose
method name is not already present in the current list. -/
def _extend_test_list (current : List MethodInfo) : List MethodInfo → List MethodInfo
  | [] => current
  | test :: rest =>
    if (current.map (fun mi => mi.1)).contains test.1 then
      _extend_test_list current rest
    else
      _extend_test_list (current ++ [test]) rest

/-- _examine_same_module (core.py lines 49-76).  Iterates the parents;
every ast.Name parent is examined in the same module (the examine closure
stands for the _examine_class recursion, already holding target module,
target class, determine_match and fuel); a parent whose recursion yielded
a non-empty method list is removed from the returned remaining-parents
list, its methods merged through _extend_test_list and its disabled names
unioned in; the match flag is taken from every recursive call.  Returns
(remaining parents, info, disabled, match); none when the fuel ran out. -/
def _examine_same_module (examine : ExamineFn) (module_path : List String) :
    List BaseRef → List MethodInfo → List String → Bool →
    Option (List BaseRef × List MethodInfo × List String × Bool)
  | [], info, disabled, matched => some ([], info, disabled, matched)
  | parent :: rest, info, disabled, matched =>
    match parent with
    | BaseRef.name parent_class =>
      match examine module_path parent_class matched with
      | none => none
      | some (i2, d2, m2) =>
        if i2.isEmpty then
          match _examine_same_module examine module_path rest info disabled m2 with
          | none => none
          | some (rem, i, d, m) => some (parent :: rem, i, d, m)
        else
          _examine_same_module examine module_path rest
            (_extend_test_list info i2) (setUnion disabled d2) m2
    | _ =>
      match _examine_same_module examine module_path rest info disabled matched with
      | none => none
      | some (rem, i, d, m) => some (parent :: rem, i, d, m)

/-- The rsplit(os.path.sep, 2) of core.py line 110 on a path given as a
component list, yielding (leading components, module, class).  With fewer
than three components CPython raises ValueError at the unpacking; such
values never occur in import tables built by PythonModule, and the model
returns none there. -/
def rsplit2 (p : List String) : Option (List String × String × String) :=
  match p.reverse with
  | c :: m :: r :: rest => some ((r :: rest).reverse, m, c)
  | _ => none

/-- _get_attributes_for_further_examination (core.py lines 83-112): turn a
base reference into (parent path, parent module, parent class) using
the table of imported objects; none models the ClassNotSuitable
exception. -/
def _get_attributes_for_further_examination (parent : BaseRef)
    (module : PyModuleData) : Option (List String × String × String) :=
  match parent with
  | BaseRef.attr valueId attrName =>
    match module.importedObjects.lookup valueId with
    | none => none
    | some p => some (p.dropLast, p.getLastD (""), attrName)
  | BaseRef.unsupportedRef => none
  | BaseRef.name id =>
    match module.importedObjects.lookup id with
    | none => none
    | some p => rsplit2 p

/-- The foreign-parents loop shared by _examine_class (core.py lines
174-198) and find_python_tests (lines 276-300).  The two sites differ in
exactly one spot: how a non-empty recursive result is merged into info
(lines 195 and 297); the merge argument captures that difference.  Parents
that raise ClassNotSuitable or whose module find_spec cannot locate are
skipped silently. -/
def _foreign_parents_loop (examine : ExamineFn) (env : DiscoveryEnv)
    (module : PyModuleData) (module_path : List String)
    (merge : List MethodInfo → List MethodInfo → List MethodInfo) :
    List BaseRef → List MethodInfo → List String → Bool →
    Option (List MethodInfo × List String × Bool)
  | [], info, disabled, matched => some (info, disabled, matched)
  | parent :: rest, info, disabled, matched =>
    match _get_attributes_for_further_examination parent module with
    | none =>
      _foreign_parents_loop examine env module module_path merge rest info disabled matched
    | some (parent_path, parent_module, parent_class) =>
      let modules_paths := parent_path :: module_path.dropLast :: env.sysPath
      match env.findSpec parent_module modules_paths with
      | none =>
        _foreign_parents_loop examine env module module_path merge rest info disabled matched
      | some origin =>
        match examine origin parent_class matched with
        | none => none
        | some (i2, d2, m2) =>
          if i2.isEmpty then
            _foreign_parents_loop examine env module module_path merge rest info disabled m2
          else
            _foreign_parents_loop examine env module module_path merge rest
              (merge info i2) (setUnion disabled d2) m2

/-- The class loop of _examine_class (core.py lines 152-198): every class
whose name equals the requested one is processed; its method info replaces
the accumulator (line 161 rebinds info), the match flag is decided through
determine_match while still False, then the same-module pass and the
foreign pass run over its bases. -/
def _examine_class_loop (examine : ExamineFn) (env : DiscoveryEnv)
    (determine_match : DetermineMatch) (module : PyModuleData)
    (path : List String) (class_name : String) :
    List ClassDef → List MethodInfo → List String → Bool →
    Option (List MethodInfo × List String × Bool)
  | [], info, disabled, matched => some (info, disabled, matched)
  | klass :: rest, info, disabled, matched =>
    if class_name != klass.name then
      _examine_class_loop examine env determine_match module path class_name
        rest info disabled matched
    else
      let docstring := klass.docstring
      let matched1 := if matched = false then determine_match module klass docstring
                      else matched
      let info1 := get_methods_info klass.body docstring.tags docstring.requirements
      match _examine_same_module examine path klass.bases info1 disabled matched1 with
      | none => none
      | some (rem, info2, disabled2, matched2) =>
        match _foreign_parents_loop examine env module path _extend_test_list
            rem info2 disabled2 matched2 with
        | none => none
        | some (info3, disabled3, matched3) =>
          _examine_class_loop examine env determine_match module path class_name
            rest info3 disabled3 matched3

/-- _examine_class (core.py lines 115-200).  The target_module and
target_class arguments of the Python function only feed the PythonModule
constructor and the recursive calls; they are absorbed into the
environment and the determine_match closure here.  The fuel bounds the
recursion depth: none means the Python call would still be recursing. -/
def _examine_class (env : DiscoveryEnv) (determine_match : DetermineMatch) :
    Nat → List String → String → Bool →
    Option (List MethodInfo × List String × Bool)
  | 0, _, _, _ => none
  | fuel + 1, path, class_name, matched =>
    let module := env.modules path
    _examine_class_loop (_examine_class env determine_match fuel) env
      determine_match module path class_name module.classes [] [] matched

/-- OrderedDict assignment (result[klass.name] = info, core.py lines 252
and 304): replace the value in place when the key exists, otherwise append
at the end. -/
def odInsert (result : List (String × List MethodInfo)) (k : String)
    (v : List MethodInfo) : List (String × List MethodInfo) :=
  if result.any (fun p => p.1 == k) then
    result.map (fun p => if p.1 == k then (k, v) else p)
  else result ++ [(k, v)]

/-- The per-class body of the find_python_tests loop (core.py lines
239-305).  A disable directive records the class as disabled and skips it;
an enable directive records the class with only its own methods; otherwise
the match flag starts from the recursive directive or is_matching_klass,
the same-module and foreign passes run over the bases (the foreign merge
here is the plain list extend of line 297), and the class is recorded only
when the final flag is True.  Line 305 (disabled.update(disabled)) is a
no-op and adds nothing. -/
def find_python_tests_step (examine : ExamineFn) (env : DiscoveryEnv)
    (module : PyModuleData) (path : List String) (klass : ClassDef)
    (result : List (String × List MethodInfo)) (disabled : List String) :
    Option (List (String × List MethodInfo) × List String) :=
  let docstring := klass.docstring
  if docstring.disable then
    some (result, setAdd disabled klass.name)
  else if docstring.enable then
    some (odInsert result klass.name
      (get_methods_info klass.body docstring.tags docstring.requirements), disabled)
  else
    let matched0 := if docstring.recursive then true else module.isMatchingKlass klass
    let info := get_methods_info klass.body docstring.tags docstring.requirements
    match _examine_same_module examine path klass.bases info disabled matched0 with
    | none => none
    | some (rem, info1, disabled1, matched1) =>
      match _foreign_parents_loop examine env module path (fun cur new => cur ++ new)
          rem info1 disabled1 matched1 with
      | none => none
      | some (info2, disabled2, matched2) =>
        if matched2 then some (odInsert result klass.name info2, disabled2)
        else some (result, disabled2)

/-- The class loop of find_python_tests (core.py line 239). -/
def find_python_tests_loop (examine : ExamineFn) (env : DiscoveryEnv)
    (module : PyModuleData) (path : List String) :
    List ClassDef → List (String × List MethodInfo) → List String →
    Option (List (String × List MethodInfo) × List String)
  | [], result, disabled => some (result, disabled)
  | klass :: rest, result, disabled =>
    match find_python_tests_step examine env module path klass result disabled with
    | none => none
    | some (r, d) => find_python_tests_loop examine env module path rest r d

/-- find_python_tests (core.py lines 203-307), with the OrderedDict result
as an insertion-ordered association list. -/
def find_python_tests (env : DiscoveryEnv) (determine_match : DetermineMatch)
    (fuel : Nat) (path : List String) :
    Option (List (String × List MethodInfo) × List String) :=
  let module := env.modules path
  find_python_tests_loop (_examine_class env determine_match fuel) env module path
    module.classes [] []

/-- _determine_match_avocado (core.py lines 310-322). -/
def _determine_match_avocado (module : PyModuleData) (klass : ClassDef)
    (docstring : DirectiveSet) : Bool :=
  if docstring.disable then true
  else if docstring.enable then true
  else if docstring.recursive then true
  else module.isMatchingKlass klass

/-- find_avocado_tests (core.py lines 325-326). -/
def find_avocado_tests (env : DiscoveryEnv) (fuel : Nat) (path : List String) :
    Option (List (String × List MethodInfo) × List String) :=
  find_python_tests env _determine_match_avocado fuel path

/-- _determine_match_unittest (core.py lines 329-334). -/
def _determine_match_unittest (module : PyModuleData) (klass : ClassDef)
    (_docstring : DirectiveSet) : Bool :=
  module.isMatchingKlass klass

/-- find_python_unittests (core.py lines 337-341). -/
def find_python_unittests (env : DiscoveryEnv) (fuel : Nat) (path : List String) :
    Option (List (String × List MethodInfo)) :=
  (find_python_tests env _determine_match_unittest fuel path).map (fun r => r.1)

/-! Concrete environments used by the scenario claims and the witnesses. -/

/-- A module with no classes and an empty import table. -/
def modEmpty : PyModuleData :=
  { classes := [], importedObjects := [], isMatchingKlass := fun _ => false }

/-- A world in which every path parses to the empty module and no module
can be located. -/
def envEmpty : DiscoveryEnv :=
  { modules := fun _ => modEmpty, findSpec := fun _ _ => none, sysPath := [] }

def pathW : List String := ["w"]

/-- Path of the scanned file of the cross-file duplicate-method scenario. -/
def pathMainC1 : List String := ["mainC1"]

/-- Path of the foreign module of the cross-file duplicate-method scenario. -/
def pathLibC1 : List String := ["lib", "m"]

/-- The scanned file of the cross-file scenario: import m and a class
Child(m.Base) declaring test_a tagged child. -/
def mainModC1 : PyModuleData :=
  { classes := [{ name := "Child", docstring := {},
                  bases := [BaseRef.attr ("m") ("Base")],
                  body := [Stmt.func { name := "test_a",
                                       docstring := { tags := ["child"] } }] }],
    importedObjects := [("m", ["lib", "m"])],
    isMatchingKlass := fun _ => false }

/-- The foreign module of the cross-file scenario: a matching class Base
declaring test_a tagged base. -/
def libModC1 : PyModuleData :=
  { classes := [{ name := "Base", docstring := {}, bases := [],
                  body := [Stmt.func { name := "test_a",
                                       docstring := { tags := ["base"] } }] }],
    importedObjects := [],
    isMatchingKlass := fun k => k.name == "Base" }

def envC1 : DiscoveryEnv :=
  { modules := fun p => if p = pathLibC1 then libModC1 else mainModC1,
    findSpec := fun nm _ => if nm == "m" then some pathLibC1 else none,
    sysPath := [] }

/-- Path of the scenario C file. -/
def pathC2 : List String := ["scenarioC"]

/-- Scenario C of the spec: Base(GenericTestBase) with test_a and
Child(Base) with test_b in one file, GenericTestBase being the target
identity (the structural-match oracle accepts exactly the classes that
list it as a base). -/
def modC2 : PyModuleData :=
  { classes := [{ name := "Base", docstring := {},
                  bases := [BaseRef.name ("GenericTestBase")],
                  body := [Stmt.func { name := "test_a", docstring := {} }] },
                { name := "Child", docstring := {},
                  bases := [BaseRef.name ("Base")],
                  body := [Stmt.func { name := "test_b", docstring := {} }] }],
    importedObjects := [],
    isMatchingKlass := fun k => k.bases.contains (BaseRef.name ("GenericTestBase")) }

def envC2 : DiscoveryEnv :=
  { modules := fun _ => modC2, findSpec := fun _ _ => none, sysPath := [] }

/-- Path of the ancestor-tag scenario file. -/
def pathC3 : List String := ["tagsFile"]

/-- Ancestor-tag scenario: a matching class Base with class-level tag base
and method test_b, and Child(Base) with method test_c and no tags. -/
def modC3 : PyModuleData :=
  { classes := [{ name := "Base", docstring := { tags := ["base"] }, bases := [],
                  body := [Stmt.func { name := "test_b", docstring := {} }] },
                { name := "Child", docstring := {},
                  bases := [BaseRef.name ("Base")],
                  body := [Stmt.func { name := "test_c", docstring := {} }] }],
    importedObjects := [],
    isMatchingKlass := fun k => k.name == "Base" }

def envC3 : DiscoveryEnv :=
  { modules := fun _ => modC3, findSpec := fun _ _ => none, sysPath := [] }

/-- Path of the scenario D file. -/
def pathC6 : List String := ["scenarioD"]

/-- Scenario D of the spec: Child(unresolved.Foreign) with its own method
test_c, where the alias unresolved has no entry in the import table; the
oracle reports Child itself as matching. -/
def modC6 : PyModuleData :=
  { classes := [{ name := "Child", docstring := {},
                  bases := [BaseRef.attr ("unresolved") ("Foreign")],
                  body := [Stmt.func { name := "test_c",
                                       docstring := { tags := ["own"] } }] }],
    importedObjects := [],
    isMatchingKlass := fun k => k.name == "Child" }

def envC6 : DiscoveryEnv :=
  { modules := fun _ => modC6, findSpec := fun _ _ => none, sysPath := [] }

/-- Path of the cyclic-inheritance file. -/
def pathC8 : List String := ["cycle"]

/-- A same-file inheritance cycle: class A(B) and class B(A). -/
def modC8 : PyModuleData :=
  { classes := [{ name := "A", docstring := {}, bases := [BaseRef.name ("B")],
                  body := [] },
                { name := "B", docstring := {}, bases := [BaseRef.name ("A")],
                  body := [] }],
    importedObjects := [],
    isMatchingKlass := fun _ => false }

def envC8 : DiscoveryEnv :=
  { modules := fun _ => modC8, findSpec := fun _ _ => none, sysPath := [] }

/-- Path of the single-class witness files. -/
def pathWD : List String := ["wd"]

/-- An enabled class Foo carrying class tag t1 and method test_one. -/
def klassW4 : ClassDef :=
  { name := "Foo", docstring := { enable := true, tags := ["t1"] },
    bases := [], body := [Stmt.func { name := "test_one", docstring := {} }] }

/-- A file with only the enabled class Foo. -/
def modW4 : PyModuleData :=
  { classes := [klassW4], importedObjects := [], isMatchingKlass := fun _ => false }

def envW4 : DiscoveryEnv :=
  { modules := fun _ => modW4, findSpec := fun _ _ => none, sysPath := [] }

/-- A disabled class Foo with a base it never gets to examine. -/
def klassW5 : ClassDef :=
  { name := "Foo", docstring := { disable := true },
    bases := [BaseRef.name ("Whatever")], body := [] }

/-- A file with only the disabled class Foo. -/
def modW5 : PyModuleData :=
  { classes := [klassW5], importedObjects := [], isMatchingKlass := fun _ => false }

def envW5 : DiscoveryEnv :=
  { modules := fun _ => modW5, findSpec := fun _ _ => none, sysPath := [] }

/-- A class Bar carrying both disable and enable. -/
def klassW10 : ClassDef :=
  { name := "Bar", docstring := { disable := true, enable := true },
    bases := [], body := [Stmt.func { name := "test_x", docstring := {} }] }

/-- A file with only the class Bar carrying both directives. -/
def modW10 : PyModuleData :=
  { classes := [klassW10], importedObjects := [], isMatchingKlass := fun _ => false }

def envW10 : DiscoveryEnv :=
  { modules := fun _ => modW10, findSpec := fun _ _ => none, sysPath := [] }

/-! Predicates used by the general theorems. -/

/-- A method-info triple that originates in some function definition of
some class of the world: its name is the function's, its tags are the
function's docstring tags united with the declaring class's class-level
tags, its requirements are the function's followed by the class's. -/
def GoodInfo (env : DiscoveryEnv) (mi : MethodInfo) : Prop :=
  ∃ p klass f, klass ∈ (env.modules p).classes ∧ Stmt.func f ∈ klass.body ∧
    mi = (f.name, tagUnion f.docstring.tags klass.docstring.tags,
          f.docstring.requirements ++ klass.docstring.requirements)

/-- Every method entry of a list satisfies GoodInfo. -/
def InfoGood (env : DiscoveryEnv) (l : List MethodInfo) : Prop :=
  ∀ mi, mi ∈ l → GoodInfo env mi

/-- An examiner all of whose successful results carry only well-formed
method entries. -/
def ExamineGood (env : DiscoveryEnv) (examine : ExamineFn) : Prop :=
  ∀ p c m i d m', examine p c m = some (i, d, m') → InfoGood env i

/-- Every value list of the result mapping satisfies InfoGood. -/
def ResGood (env : DiscoveryEnv) (res : List (String × List MethodInfo)) : Prop :=
  ∀ kv, kv ∈ res → InfoGood env kv.2

/-- An examiner that never turns a True match flag into anything else. -/
def ExamineMono (examine : ExamineFn) : Prop :=
  ∀ p c i d m', examine p c true = some (i, d, m') → m' = true

/-- The inheritance references reachable from the class named cls in the
module at path are exhausted within n steps: every recursive examination
_examine_class would start from there (a same-module ast.Name base, or a
foreign base whose import entry and find_spec search succeed) itself
resolves within n - 1.  For a finite world this is exactly
well-foundedness, i.e. absence of a reachable inheritance cycle. -/
inductive ResolvesWithin (env : DiscoveryEnv) : Nat → List String → String → Prop where
  | step (n : Nat) (path : List String) (cls : String)
      (hsame : ∀ klass, klass ∈ (env.modules path).classes → klass.name = cls →
        ∀ id, BaseRef.name id ∈ klass.bases → ResolvesWithin env n path id)
      (hforeign : ∀ klass, klass ∈ (env.modules path).classes → klass.name = cls →
        ∀ parent, parent ∈ klass.bases →
        ∀ pp pm pc, _get_attributes_for_further_examination parent (env.modules path) =
            some (pp, pm, pc) →
        ∀ origin, env.findSpec pm (pp :: path.dropLast :: env.sysPath) = some origin →
          ResolvesWithin env n origin pc) :
      ResolvesWithin env (n + 1) path cls

/-! Helper lemmas about the small set and list operations. -/

theorem mem_setAdd_of_mem (s : List String) (x y : String) (h : y ∈ s) :
    y ∈ setAdd s x := by
  unfold setAdd
  split
  · exact h
  · exact List.mem_append_left _ h

theorem mem_setAdd_self (s : List String) (x : String) : x ∈ setAdd s x := by
  unfold setAdd
  split
  · next h => simpa using h
  · exact List.mem_append_right _ (List.mem_singleton.mpr rfl)

theorem mem_setUnion_left (b a : List String) (x : String) (h : x ∈ a) :
    x ∈ setUnion a b := by
  induction b generalizing a with
  | nil => exact h
  | cons y ys ih => exact ih (setAdd a y) (mem_setAdd_of_mem a y x h)

theorem mem_tagUnion_left (a b : List String) (t : String) (h : t ∈ a) :
    t ∈ tagUnion a b :=
  List.mem_append_left _ h

theorem mem_tagUnion_right (a b : List String) (t : String) (h : t ∈ b) :
    t ∈ tagUnion a b := by
  by_cases hc : t ∈ a
  · exact List.mem_append_left _ hc
  · refine List.mem_append_right _ (List.mem_filter.mpr ⟨h, ?_⟩)
    simp [hc]

theorem mem_extend_test_list (new cur : List MethodInfo) (mi : MethodInfo)
    (h : mi ∈ _extend_test_list cur new) : mi ∈ cur ∨ mi ∈ new := by
  induction new generalizing cur with
  | nil => exact Or.inl h
  | cons t rest ih =>
    unfold _extend_test_list at h
    split at h
    · rcases ih cur h with h' | h'
      · exact Or.inl h'
      · exact Or.inr (List.mem_cons_of_mem _ h')
    · rcases ih (cur ++ [t]) h with h' | h'
      · rcases List.mem_append.mp h' with h'' | h''
        · exact Or.inl h''
        · exact Or.inr (by rw [List.mem_singleton.mp h'']; exact List.mem_cons_self _ _)
      · exact Or.inr (List.mem_cons_of_mem _ h')

theorem get_methods_info_go_mem (class_tags class_requirements : List String)
    (body : List Stmt) (acc : List MethodInfo) (mi : MethodInfo)
    (h : mi ∈ get_methods_info_go class_tags class_requirements body acc) :
    mi ∈ acc ∨ ∃ f, Stmt.func f ∈ body ∧
      mi = (f.name, tagUnion f.docstring.tags class_tags,
            f.docstring.requirements ++ class_requirements) := by
  induction body generalizing acc with
  | nil => exact Or.inl h
  | cons st sts ih =>
    match st with
    | Stmt.other =>
      rcases ih acc h with h' | ⟨f, hf, he⟩
      · exact Or.inl h'
      · exact Or.inr ⟨f, List.mem_cons_of_mem _ hf, he⟩
    | Stmt.func g =>
      have h2 : mi ∈ (if strStartsWith g.name ("test") = true then
          (if ((acc.map (fun mi => mi.1)).contains g.name) = true then
            get_methods_info_go class_tags class_requirements sts acc
          else
            get_methods_info_go class_tags class_requirements sts
              (acc ++ [(g.name, tagUnion g.docstring.tags class_tags,
                g.docstring.requirements ++ class_requirements)]))
        else get_methods_info_go class_tags class_requirements sts acc) := h
      clear h
      rename' h2 => h
      by_cases hs : strStartsWith g.name ("test") = true
      · rw [if_pos hs] at h
        by_cases hc : ((acc.map (fun mi => mi.1)).contains g.name) = true
        · rw [if_pos hc] at h
          rcases ih acc h with h' | ⟨f, hf, he⟩
          · exact Or.inl h'
          · exact Or.inr ⟨f, List.mem_cons_of_mem _ hf, he⟩
        · rw [if_neg hc] at h
          rcases ih _ h with h' | ⟨f, hf, he⟩
          · rcases List.mem_append.mp h' with h'' | h''
            · exact Or.inl h''
            · exact Or.inr ⟨g, List.mem_cons_self _ _, List.mem_singleton.mp h''⟩
          · exact Or.inr ⟨f, List.mem_cons_of_mem _ hf, he⟩
      · rw [if_neg hs] at h
        rcases ih acc h with h' | ⟨f, hf, he⟩
        · exact Or.inl h'
        · exact Or.inr ⟨f, List.mem_cons_of_mem _ hf, he⟩

theorem get_methods_info_mem (class_tags class_requirements : List String)
    (body : List Stmt) (mi : MethodInfo)
    (h : mi ∈ get_methods_info body class_tags class_requirements) :
    ∃ f, Stmt.func f ∈ body ∧
      mi = (f.name, tagUnion f.docstring.tags class_tags,
            f.docstring.requirements ++ class_requirements) := by
  rcases get_methods_info_go_mem class_tags class_requirements body [] mi h with h' | h'
  · cases h'
  · exact h'

theorem lookup_cons_self {a k : String} {b : List MethodInfo}
    {l : List (String × List MethodInfo)} (h : (k == a) = true) :
    List.lookup k ((a, b) :: l) = some b := by
  simp [List.lookup, h]

theorem lookup_cons_ne {a k : String} {b : List MethodInfo}
    {l : List (String × List MethodInfo)} (h : (k == a) = false) :
    List.lookup k ((a, b) :: l) = List.lookup k l := by
  simp [List.lookup, h]

theorem lookup_map_replace_self (res : List (String × List MethodInfo))
    (k : String) (v : List MethodInfo)
    (hany : res.any (fun p => p.1 == k) = true) :
    List.lookup k (res.map (fun p => if p.1 == k then (k, v) else p)) = some v := by
  induction res with
  | nil => simp at hany
  | cons kv rest ih =>
    obtain ⟨a, b⟩ := kv
    rw [List.map_cons]
    by_cases hk : a = k
    · have h1 : (a == k) = true := beq_iff_eq.mpr hk
      have hhead : (if ((a, b).1 == k) = true then (k, v) else (a, b)) = (k, v) := by
        simp [h1]
      rw [hhead, lookup_cons_self (beq_self_eq_true k)]
    · have h1 : (a == k) = false := beq_eq_false_iff_ne.mpr hk
      have hhead : (if ((a, b).1 == k) = true then (k, v) else (a, b)) = (a, b) := by
        simp [h1]
      rw [hhead]
      have hany' : rest.any (fun p => p.1 == k) = true := by
        simpa [List.any_cons, h1] using hany
      have hka : (k == a) = false := beq_eq_false_iff_ne.mpr (Ne.symm hk)
      rw [lookup_cons_ne hka]
      exact ih hany'

theorem lookup_append_single_self (res : List (String × List MethodInfo))
    (k : String) (v : List MethodInfo)
    (hnone : res.any (fun p => p.1 == k) = false) :
    List.lookup k (res ++ [(k, v)]) = some v := by
  induction res with
  | nil => simp [List.lookup]
  | cons kv rest ih =>
    obtain ⟨a, b⟩ := kv
    simp only [List.any_cons, Bool.or_eq_false_iff] at hnone
    have hka : (k == a) = false := by
      refine beq_eq_false_iff_ne.mpr (Ne.symm ?_)
      exact beq_eq_false_iff_ne.mp (by simpa using hnone.1)
    rw [List.cons_append, lookup_cons_ne hka]
    exact ih hnone.2

theorem lookup_odInsert_self (res : List (String × List MethodInfo))
    (k : String) (v : List MethodInfo) :
    List.lookup k (odInsert res k v) = some v := by
  unfold odInsert
  split
  · next hany => exact lookup_map_replace_self res k v hany
  · next hany => exact lookup_append_single_self res k v (Bool.eq_false_iff.mpr hany)

theorem lookup_map_replace_ne (res : List (String × List MethodInfo))
    (kn k : String) (v : List MethodInfo) (hne : kn ≠ k) :
    List.lookup k (res.map (fun p => if p.1 == kn then (kn, v) else p)) =
      List.lookup k res := by
  induction res with
  | nil => rfl
  | cons kv rest ih =>
    obtain ⟨a, b⟩ := kv
    rw [List.map_cons]
    by_cases hk : a = kn
    · have h1 : (a == kn) = true := beq_iff_eq.mpr hk
      have hhead : (if ((a, b).1 == kn) = true then (kn, v) else (a, b)) = (kn, v) := by
        simp [h1]
      rw [hhead]
      have hka : (k == a) = false := by
        rw [hk]
        exact beq_eq_false_iff_ne.mpr (Ne.symm hne)
      have hkkn : (k == kn) = false := beq_eq_false_iff_ne.mpr (Ne.symm hne)
      rw [lookup_cons_ne hkkn, lookup_cons_ne hka]
      exact ih
    · have h1 : (a == kn) = false := beq_eq_false_iff_ne.mpr hk
      have hhead : (if ((a, b).1 == kn) = true then (kn, v) else (a, b)) = (a, b) := by
        simp [h1]
      rw [hhead]
      by_cases hkk : k = a
      · rw [lookup_cons_self (beq_iff_eq.mpr hkk), lookup_cons_self (beq_iff_eq.mpr hkk)]
      · have hka : (k == a) = false := beq_eq_false_iff_ne.mpr hkk
        rw [lookup_cons_ne hka, lookup_cons_ne hka]
        exact ih

theorem lookup_append_single_ne (res : List (String × List MethodInfo))
    (kn k : String) (v : List MethodInfo) (hne : kn ≠ k) :
    List.lookup k (res ++ [(kn, v)]) = List.lookup k res := by
  induction res with
  | nil =>
    rw [List.nil_append, lookup_cons_ne (beq_eq_false_iff_ne.mpr (Ne.symm hne))]
  | cons kv rest ih =>
    obtain ⟨a, b⟩ := kv
    rw [List.cons_append]
    by_cases hkk : k = a
    · rw [lookup_cons_self (beq_iff_eq.mpr hkk), lookup_cons_self (beq_iff_eq.mpr hkk)]
    · rw [lookup_cons_ne (beq_eq_false_iff_ne.mpr hkk),
        lookup_cons_ne (beq_eq_false_iff_ne.mpr hkk)]
      exact ih

theorem lookup_odInsert_ne (res : List (String × List MethodInfo))
    (kn k : String) (v : List MethodInfo) (hne : kn ≠ k) :
    List.lookup k (odInsert res kn v) = List.lookup k res := by
  unfold odInsert
  split
  · exact lookup_map_replace_ne res kn k v hne
  · exact lookup_append_single_ne res kn k v hne

theorem keys_odInsert (res : List (String × List MethodInfo))
    (kn k : String) (v : List MethodInfo)
    (h : k ∈ (odInsert res kn v).map Prod.fst) :
    k ∈ res.map Prod.fst ∨ k = kn := by
  unfold odInsert at h
  split at h
  · rcases List.mem_map.mp h with ⟨p, hp, hfst⟩
    rcases List.mem_map.mp hp with ⟨q, hq, hqe⟩
    by_cases hqk : q.1 = kn
    · right
      rw [← hfst, ← hqe]
      simp [hqk]
    · left
      refine List.mem_map.mpr ⟨q, hq, ?_⟩
      rw [← hfst, ← hqe]
      simp [beq_eq_false_iff_ne.mpr hqk]
  · rw [List.map_append] at h
    rcases List.mem_append.mp h with h' | h'
    · exact Or.inl h'
    · right
      simpa using h'

theorem mem_values_odInsert (res : List (String × List MethodInfo))
    (kn : String) (v : List MethodInfo) (kv : String × List MethodInfo)
    (h : kv ∈ odInsert res kn v) : kv ∈ res ∨ kv.2 = v := by
  unfold odInsert at h
  split at h
  · rcases List.mem_map.mp h with ⟨q, hq, hqe⟩
    by_cases hqk : q.1 = kn
    · right
      rw [← hqe]
      simp [hqk]
    · left
      rw [← hqe]
      simpa [beq_eq_false_iff_ne.mpr hqk] using hq
  · rcases List.mem_append.mp h with h' | h'
    · exact Or.inl h'
    · right
      rw [List.mem_singleton.mp h']

/-! The scenario claims that evaluate the embedded code on concrete files. -/

/-- C1: the claim says that when a subclass and a cross-file ancestor both
declare a same-named test method, exactly one entry under that name
appears, carrying the subclass's tags.  Evaluating find_python_tests on
such a file refutes this: the foreign-parent merge of find_python_tests
(core.py line 297) uses a plain list extend instead of _extend_test_list,
so Child's method list carries the name test_a twice, the subclass's entry
followed by the ancestor's.  The second conjunct makes the duplication
explicit. -/
theorem claim1_code_evaluation :
    find_python_tests envC1 _determine_match_avocado 5 pathMainC1 =
      some ([(("Child"), [(("test_a"), ["child"], []), (("test_a"), ["base"], [])])],
        [])
    ∧ ((find_python_tests envC1 _determine_match_avocado 5 pathMainC1).map
        (fun r => r.1.map (fun kv => kv.2.map (fun mi => mi.1)))) =
      some [["test_a", "test_a"]] := by
  exact ⟨by decide, by decide⟩

/-- C2 counterexample: in scenario C the claim asserts the mapping value
for Child is the list test_a before test_b (ancestor's method first).  The
code yields test_b before test_a: _extend_test_list appends inherited
methods after the subclass's own ones. -/
theorem claim2_counterexample :
    ((find_python_tests envC2 _determine_match_avocado 5 pathC2).map
      (fun r => r.1.map (fun kv => (kv.1, kv.2.map (fun mi => mi.1))))) =
      some [("Base", ["test_a"]), ("Child", ["test_b", "test_a"])]
    ∧ (["test_b", "test_a"] : List String) ≠ ["test_a", "test_b"] := by
  exact ⟨by decide, by decide⟩

/-- C2 amended: scenario C returns Base mapped to test_a and Child mapped
to test_b then test_a, the subclass's own method first and the ancestor's
method appended after it. -/
theorem claim2_amended :
    find_python_tests envC2 _determine_match_avocado 5 pathC2 =
      some ([(("Base"), [(("test_a"), [], [])]),
             (("Child"), [(("test_b"), [], []), (("test_a"), [], [])])], []) := by
  decide

/-- C3 counterexample: Base, carrying class-level tag base, is a resolved
ancestor of Child (its method test_b, tagged base, is merged into Child's
list), yet Child's own method test_c ends with the empty tag set, which
does not contain base.  The final tag set of a method is therefore not a
superset of every resolved ancestor's class-level tags. -/
theorem claim3_counterexample :
    find_python_tests envC3 _determine_match_avocado 5 pathC3 =
      some ([(("Base"), [(("test_b"), ["base"], [])]),
             (("Child"), [(("test_c"), [], []), (("test_b"), ["base"], [])])], [])
    ∧ (([] : List String).contains ("base")) = false := by
  exact ⟨by decide, by decide⟩

/-- C6: scenario D.  A class Child whose only base is the unresolvable
reference unresolved.Foreign is discovered without error: the import-table
lookup fails, the ClassNotSuitable path skips the base silently, and Child
is reported with exactly its own locally declared method.  The call runs
with zero fuel, which additionally shows the hierarchy resolver is never
consulted for this file. -/
theorem claim6 :
    find_python_tests envC6 _determine_match_avocado 0 pathC6 =
      some ([(("Child"), [(("test_c"), ["own"], [])])], []) := by
  decide

/-- The class loop of _examine_class leaves its accumulators untouched
when no class in the list bears the requested name. -/
theorem examine_class_loop_no_match (examine : ExamineFn) (env : DiscoveryEnv)
    (dm : DetermineMatch) (module : PyModuleData) (path : List String)
    (cls : String) (ks : List ClassDef) (info : List MethodInfo)
    (disabled : List String) (matched : Bool)
    (h : ∀ k, k ∈ ks → k.name ≠ cls) :
    _examine_class_loop examine env dm module path cls ks info disabled matched =
      some (info, disabled, matched) := by
  induction ks with
  | nil => rfl
  | cons klass rest ih =>
    have hne : (cls != klass.name) = true :=
      bne_iff_ne.mpr (Ne.symm (h klass (List.mem_cons_self _ _)))
    unfold _examine_class_loop
    rw [if_pos hne]
    exact ih (fun k hk => h k (List.mem_cons_of_mem _ hk))

/-- C7: examining a class name that no class of the module at the path
bears returns the empty method list, the empty disabled set and the match
flag unchanged, without raising an error (any non-zero fuel suffices
because no recursion happens). -/
theorem claim7 (env : DiscoveryEnv) (dm : DetermineMatch) (fuel : Nat)
    (path : List String) (cls : String) (matched : Bool)
    (h : ∀ k, k ∈ (env.modules path).classes → k.name ≠ cls) :
    _examine_class env dm (fuel + 1) path cls matched = some ([], [], matched) := by
  unfold _examine_class
  exact examine_class_loop_no_match _ env dm (env.modules path) path cls
    (env.modules path).classes [] [] matched h

/-- C7 witness: the world of empty modules has no class named B anywhere,
and the examination returns the empty result with the match flag False it
was given. -/
theorem claim7_witness :
    _examine_class envEmpty _determine_match_avocado 1 pathW ("B") false =
      some ([], [], false) := by
  exact claim7 envEmpty _determine_match_avocado 0 pathW ("B") false
    (by intro k hk; cases hk)

/-! Monotonicity of the match flag (claim C9). -/

/-- The same-module pass never turns a True match flag off, provided the
examiner it recurses through has that property. -/
theorem same_module_mono (examine : ExamineFn) (mp : List String)
    (hex : ExamineMono examine) :
    ∀ (ps : List BaseRef) (info : List MethodInfo) (dis : List String)
      (rem : List BaseRef) (i : List MethodInfo) (d : List String) (m' : Bool),
      _examine_same_module examine mp ps info dis true = some (rem, i, d, m') →
      m' = true := by
  intro ps
  induction ps with
  | nil =>
    intro info dis rem i d m' h
    unfold _examine_same_module at h
    simp only [Option.some.injEq, Prod.mk.injEq] at h
    exact h.2.2.2.symm
  | cons p rest ih =>
    intro info dis rem i d m' h
    cases p with
    | name pc =>
      simp only [_examine_same_module] at h
      split at h
      · cases h
      · next i2 d2 m2 hx =>
        have hm2 : m2 = true := hex mp pc i2 d2 m2 hx
        subst hm2
        split at h
        · split at h
          · cases h
          · next hrec =>
            simp only [Option.some.injEq, Prod.mk.injEq] at h
            rcases h with ⟨-, -, -, hm⟩
            subst hm
            exact ih _ _ _ _ _ _ hrec
        · exact ih _ _ _ _ _ _ h
    | attr v a =>
      simp only [_examine_same_module] at h
      split at h
      · cases h
      · next hrec =>
        simp only [Option.some.injEq, Prod.mk.injEq] at h
        rcases h with ⟨-, -, -, hm⟩
        subst hm
        exact ih _ _ _ _ _ _ hrec
    | unsupportedRef =>
      simp only [_examine_same_module] at h
      split at h
      · cases h
      · next hrec =>
        simp only [Option.some.injEq, Prod.mk.injEq] at h
        rcases h with ⟨-, -, -, hm⟩
        subst hm
        exact ih _ _ _ _ _ _ hrec

/-- The foreign-parents loop never turns a True match flag off, for any
merge function, provided the examiner has that property. -/
theorem foreign_loop_mono (examine : ExamineFn) (env : DiscoveryEnv)
    (module : PyModuleData) (mp : List String)
    (merge : List MethodInfo → List MethodInfo → List MethodInfo)
    (hex : ExamineMono examine) :
    ∀ (ps : List BaseRef) (info : List MethodInfo) (dis : List String)
      (i : List MethodInfo) (d : List String) (m' : Bool),
      _foreign_parents_loop examine env module mp merge ps info dis true =
        some (i, d, m') → m' = true := by
  intro ps
  induction ps with
  | nil =>
    intro info dis i d m' h
    unfold _foreign_parents_loop at h
    simp only [Option.some.injEq, Prod.mk.injEq] at h
    exact h.2.2.symm
  | cons p rest ih =>
    intro info dis i d m' h
    simp only [_foreign_parents_loop] at h
    split at h
    · exact ih _ _ _ _ _ h
    · split at h
      · exact ih _ _ _ _ _ h
      · split at h
        · cases h
        · next i2 d2 m2 hx =>
          have hm2 : m2 = true := hex _ _ i2 d2 m2 hx
          subst hm2
          split at h
          · exact ih _ _ _ _ _ h
          · exact ih _ _ _ _ _ h

/-- The class loop of _examine_class never turns a True match flag off,
provided the examiner has that property. -/
theorem examine_class_loop_mono (examine : ExamineFn) (env : DiscoveryEnv)
    (dm : DetermineMatch) (module : PyModuleData) (path : List String)
    (cls : String) (hex : ExamineMono examine) :
    ∀ (ks : List ClassDef) (info : List MethodInfo) (dis : List String)
      (i : List MethodInfo) (d : List String) (m' : Bool),
      _examine_class_loop examine env dm module path cls ks info dis true =
        some (i, d, m') → m' = true := by
  intro ks
  induction ks with
  | nil =>
    intro info dis i d m' h
    unfold _examine_class_loop at h
    simp only [Option.some.injEq, Prod.mk.injEq] at h
    exact h.2.2.symm
  | cons klass rest ih =>
    intro info dis i d m' h
    simp only [_examine_class_loop] at h
    split at h
    · exact ih _ _ _ _ _ h
    · rw [if_neg (by decide : ¬ (true = false))] at h
      split at h
      · cases h
      · next rem info2 dis2 m2 hsm =>
        have hm2 : m2 = true :=
          same_module_mono examine path hex klass.bases _ dis rem info2 dis2 m2 hsm
        subst hm2
        split at h
        · cases h
        · next info3 dis3 m3 hfl =>
          have hm3 : m3 = true :=
            foreign_loop_mono examine env module path _extend_test_list hex
              rem info2 dis2 info3 dis3 m3 hfl
          subst hm3
          exact ih _ _ _ _ _ h

/-- _examine_class is monotone in the match flag: called with True it can
only return True. -/
theorem examine_class_mono (env : DiscoveryEnv) (dm : DetermineMatch) :
    ∀ (fuel : Nat), ExamineMono (_examine_class env dm fuel) := by
  intro fuel
  induction fuel with
  | zero =>
    intro p c i d m' h
    cases h
  | succ fuel ih =>
    intro p c i d m' h
    unfold _examine_class at h
    exact examine_class_loop_mono (_examine_class env dm fuel) env dm
      (env.modules p) p c ih (env.modules p).classes [] [] i d m' h

/-- C9: the match flag is monotone throughout a resolution.  Once True
(Matched), neither the hierarchy examination itself, nor the same-module
recursion, nor the foreign-module recursion and its result merging can
revert it: every successful call that starts from a True flag ends with a
True flag. -/
theorem claim9 (env : DiscoveryEnv) (dm : DetermineMatch) (fuel : Nat)
    (path : List String) :
    (∀ cls i d m', _examine_class env dm fuel path cls true = some (i, d, m') →
      m' = true) ∧
    (∀ ps info dis rem i d m',
      _examine_same_module (_examine_class env dm fuel) path ps info dis true =
        some (rem, i, d, m') → m' = true) ∧
    (∀ module merge ps info dis i d m',
      _foreign_parents_loop (_examine_class env dm fuel) env module path merge
        ps info dis true = some (i, d, m') → m' = true) := by
  refine ⟨?_, ?_, ?_⟩
  · intro cls i d m' h
    exact examine_class_mono env dm fuel path cls i d m' h
  · intro ps info dis rem i d m' h
    exact same_module_mono _ path (examine_class_mono env dm fuel)
      ps info dis rem i d m' h
  · intro module merge ps info dis i d m' h
    exact foreign_loop_mono _ env module path merge (examine_class_mono env dm fuel)
      ps info dis i d m' h

/-- C9 witness: in the empty world an examination started with a True flag
returns, and the flag it returns is True, as claim9 states. -/
theorem claim9_witness :
    _examine_class envEmpty _determine_match_avocado 1 pathW ("C") true =
      some ([], [], true)
    ∧ (true : Bool) = true := by
  refine ⟨by decide, ?_⟩
  exact (claim9 envEmpty _determine_match_avocado 1 pathW).1 ("C") [] [] true
    (by decide)

/-! Divergence of the resolver on a cyclic same-file inheritance chain
(claim C8). -/

/-- On the cyclic file (class A(B); class B(A)) the examination of either
class name runs out of any amount of fuel: the Python original would
recurse forever. -/
theorem cyc_examine_none :
    ∀ (fuel : Nat) (m : Bool),
      _examine_class envC8 _determine_match_avocado fuel pathC8 ("A") m = none ∧
      _examine_class envC8 _determine_match_avocado fuel pathC8 ("B") m = none := by
  intro fuel
  induction fuel with
  | zero => intro m; exact ⟨rfl, rfl⟩
  | succ fuel ih =>
    intro m
    have ihA : ∀ mq, _examine_class envC8 _determine_match_avocado fuel pathC8 ("A") mq = none :=
      fun mq => (ih mq).1
    have ihB : ∀ mq, _examine_class envC8 _determine_match_avocado fuel pathC8 ("B") mq = none :=
      fun mq => (ih mq).2
    simp only [envC8, modC8] at ihA ihB
    constructor
    · simp [_examine_class, _examine_class_loop, _examine_same_module, envC8, modC8,
        _determine_match_avocado, get_methods_info, get_methods_info_go, ihB]
    · simp [_examine_class, _examine_class_loop, _examine_same_module, envC8, modC8,
        _determine_match_avocado, get_methods_info, get_methods_info_go, ihA]

/-- C8 counterexample: the resolver does not terminate on every input.  On
the file declaring class A(B) and class B(A), no amount of fuel makes the
examination of A return: the recursion never bottoms out, so there is no
finite number of recursive calls after which _examine_class returns. -/
theorem claim8_counterexample :
    ¬ ∃ (fuel : Nat) (r : List MethodInfo × List String × Bool),
        _examine_class envC8 _determine_match_avocado fuel pathC8 ("A") false =
          some r := by
  rintro ⟨fuel, r, h⟩
  rw [(cyc_examine_none fuel false).1] at h
  cases h

/-! Termination on well-founded inheritance graphs (claim C8, amended). -/

/-- If every same-module examination a parents list can trigger returns,
the same-module pass returns, and the remaining-parents list it yields is
a subset of the parents it was given. -/
theorem same_module_isSome (examine : ExamineFn) (mp : List String) :
    ∀ (ps : List BaseRef) (info : List MethodInfo) (dis : List String) (m : Bool),
      (∀ id mq, BaseRef.name id ∈ ps → (examine mp id mq).isSome = true) →
      ∃ rem i d m',
        _examine_same_module examine mp ps info dis m = some (rem, i, d, m') ∧
        ∀ p, p ∈ rem → p ∈ ps := by
  intro ps
  induction ps with
  | nil =>
    intro info dis m _
    exact ⟨[], info, dis, m, rfl, fun p hp => absurd hp (List.not_mem_nil p)⟩
  | cons p rest ih =>
    intro info dis m h
    have hweak : ∀ id mq, BaseRef.name id ∈ rest → (examine mp id mq).isSome = true :=
      fun id mq hm => h id mq (List.mem_cons_of_mem _ hm)
    cases p with
    | name pc =>
      have hx : (examine mp pc m).isSome = true := h pc m (List.mem_cons_self _ _)
      obtain ⟨t, ht⟩ := Option.isSome_iff_exists.mp hx
      obtain ⟨i2, d2, m2⟩ := t
      by_cases he : i2.isEmpty = true
      · obtain ⟨rem, i, d, m', hrec, hsub⟩ := ih info dis m2 hweak
        refine ⟨BaseRef.name pc :: rem, i, d, m', ?_, ?_⟩
        · simp only [_examine_same_module, ht, if_pos he, hrec]
        · intro q hq
          rcases List.mem_cons.mp hq with hq' | hq'
          · rw [hq']
            exact List.mem_cons_self _ _
          · exact List.mem_cons_of_mem _ (hsub q hq')
      · obtain ⟨rem, i, d, m', hrec, hsub⟩ :=
          ih (_extend_test_list info i2) (setUnion dis d2) m2 hweak
        refine ⟨rem, i, d, m', ?_, fun q hq => List.mem_cons_of_mem _ (hsub q hq)⟩
        simp only [_examine_same_module, ht, if_neg he, hrec]
    | attr v a =>
      obtain ⟨rem, i, d, m', hrec, hsub⟩ := ih info dis m hweak
      refine ⟨BaseRef.attr v a :: rem, i, d, m', ?_, ?_⟩
      · simp only [_examine_same_module, hrec]
      · intro q hq
        rcases List.mem_cons.mp hq with hq' | hq'
        · rw [hq']
          exact List.mem_cons_self _ _
        · exact List.mem_cons_of_mem _ (hsub q hq')
    | unsupportedRef =>
      obtain ⟨rem, i, d, m', hrec, hsub⟩ := ih info dis m hweak
      refine ⟨BaseRef.unsupportedRef :: rem, i, d, m', ?_, ?_⟩
      · simp only [_examine_same_module, hrec]
      · intro q hq
        rcases List.mem_cons.mp hq with hq' | hq'
        · rw [hq']
          exact List.mem_cons_self _ _
        · exact List.mem_cons_of_mem _ (hsub q hq')

/-- If every foreign examination a parents list can trigger returns, the
foreign-parents loop returns. -/
theorem foreign_loop_isSome (examine : ExamineFn) (env : DiscoveryEnv)
    (module : PyModuleData) (mp : List String)
    (merge : List MethodInfo → List MethodInfo → List MethodInfo) :
    ∀ (ps : List BaseRef) (info : List MethodInfo) (dis : List String) (m : Bool),
      (∀ parent, parent ∈ ps → ∀ pp pm pc,
        _get_attributes_for_further_examination parent module = some (pp, pm, pc) →
        ∀ origin, env.findSpec pm (pp :: mp.dropLast :: env.sysPath) = some origin →
        ∀ mq, (examine origin pc mq).isSome = true) →
      (_foreign_parents_loop examine env module mp merge ps info dis m).isSome = true := by
  intro ps
  induction ps with
  | nil => intro info dis m _; rfl
  | cons p rest ih =>
    intro info dis m h
    have hweak := fun parent hm => h parent (List.mem_cons_of_mem _ hm)
    cases hga : _get_attributes_for_further_examination p module with
    | none =>
      have heval : _foreign_parents_loop examine env module mp merge (p :: rest) info dis m =
          _foreign_parents_loop examine env module mp merge rest info dis m := by
        simp only [_foreign_parents_loop, hga]
      rw [heval]
      exact ih info dis m hweak
    | some t =>
      obtain ⟨pp, pm, pc⟩ := t
      cases hfs : env.findSpec pm (pp :: mp.dropLast :: env.sysPath) with
      | none =>
        have heval : _foreign_parents_loop examine env module mp merge (p :: rest) info dis m =
            _foreign_parents_loop examine env module mp merge rest info dis m := by
          simp only [_foreign_parents_loop, hga, hfs]
        rw [heval]
        exact ih info dis m hweak
      | some origin =>
        have hx : (examine origin pc m).isSome = true :=
          h p (List.mem_cons_self _ _) pp pm pc hga origin hfs m
        obtain ⟨t2, ht⟩ := Option.isSome_iff_exists.mp hx
        obtain ⟨i2, d2, m2⟩ := t2
        by_cases he : i2.isEmpty = true
        · have heval : _foreign_parents_loop examine env module mp merge (p :: rest) info dis m =
              _foreign_parents_loop examine env module mp merge rest info dis m2 := by
            simp only [_foreign_parents_loop, hga, hfs, ht, if_pos he]
          rw [heval]
          exact ih info dis m2 hweak
        · have heval : _foreign_parents_loop examine env module mp merge (p :: rest) info dis m =
              _foreign_parents_loop examine env module mp merge rest
                (merge info i2) (setUnion dis d2) m2 := by
            simp only [_foreign_parents_loop, hga, hfs, ht, if_neg he]
          rw [heval]
          exact ih (merge info i2) (setUnion dis d2) m2 hweak

/-- If every examination the classes of the list can trigger (same-module
or foreign) returns, the class loop of _examine_class returns. -/
theorem examine_class_loop_isSome (examine : ExamineFn) (env : DiscoveryEnv)
    (dm : DetermineMatch) (module : PyModuleData) (path : List String)
    (cls : String) :
    ∀ (ks : List ClassDef) (info : List MethodInfo) (dis : List String) (m : Bool),
      (∀ klass, klass ∈ ks → klass.name = cls →
        ∀ id mq, BaseRef.name id ∈ klass.bases → (examine path id mq).isSome = true) →
      (∀ klass, klass ∈ ks → klass.name = cls →
        ∀ parent, parent ∈ klass.bases → ∀ pp pm pc,
          _get_attributes_for_further_examination parent module = some (pp, pm, pc) →
          ∀ origin, env.findSpec pm (pp :: path.dropLast :: env.sysPath) = some origin →
          ∀ mq, (examine origin pc mq).isSome = true) →
      (_examine_class_loop examine env dm module path cls ks info dis m).isSome = true := by
  intro ks
  induction ks with
  | nil => intro info dis m _ _; rfl
  | cons klass rest ih =>
    intro info dis m hsame hforeign
    have hsameW := fun k hk => hsame k (List.mem_cons_of_mem _ hk)
    have hforeignW := fun k hk => hforeign k (List.mem_cons_of_mem _ hk)
    by_cases hne : (cls != klass.name) = true
    · have heval : _examine_class_loop examine env dm module path cls (klass :: rest)
          info dis m =
          _examine_class_loop examine env dm module path cls rest info dis m := by
        simp only [_examine_class_loop, if_pos hne]
      rw [heval]
      exact ih info dis m hsameW hforeignW
    · have heq : klass.name = cls := by
        by_contra hcontr
        exact hne (bne_iff_ne.mpr (Ne.symm hcontr))
      obtain ⟨rem, i2, d2, m2, hsm, hsub⟩ :=
        same_module_isSome examine path klass.bases
          (get_methods_info klass.body klass.docstring.tags klass.docstring.requirements)
          dis (if m = false then dm module klass klass.docstring else m)
          (fun id mq hm => hsame klass (List.mem_cons_self _ _) heq id mq hm)
      have hfl : (_foreign_parents_loop examine env module path _extend_test_list
          rem i2 d2 m2).isSome = true :=
        foreign_loop_isSome examine env module path _extend_test_list rem i2 d2 m2
          (fun parent hm pp pm pc hga origin hfs mq =>
            hforeign klass (List.mem_cons_self _ _) heq parent (hsub parent hm)
              pp pm pc hga origin hfs mq)
      obtain ⟨t3, hflE⟩ := Option.isSome_iff_exists.mp hfl
      obtain ⟨i3, d3, m3⟩ := t3
      have heval : _examine_class_loop examine env dm module path cls (klass :: rest)
          info dis m =
          _examine_class_loop examine env dm module path cls rest i3 d3 m3 := by
        simp only [_examine_class_loop, if_neg hne, hsm, hflE]
      rw [heval]
      exact ih i3 d3 m3 hsameW hforeignW

/-- C8 amended: the resolver terminates on every input whose inheritance
reference graph is well-founded from the examined class: when every chain
of same-module and foreign references starting at (path, cls) bottoms out
within the given fuel (ResolvesWithin, which for a finite world is exactly
the absence of a reachable inheritance cycle), _examine_class returns a
result.  The unguarded cyclic case is refuted separately. -/
theorem claim8_amended (env : DiscoveryEnv) (dm : DetermineMatch) (fuel : Nat)
    (path : List String) (cls : String) (m : Bool)
    (h : ResolvesWithin env fuel path cls) :
    (_examine_class env dm fuel path cls m).isSome = true := by
  induction h generalizing m with
  | step n path cls hsame hforeign ihsame ihforeign =>
    have heval : _examine_class env dm (n + 1) path cls m =
        _examine_class_loop (_examine_class env dm n) env dm (env.modules path)
          path cls (env.modules path).classes [] [] m := by
      simp only [_examine_class]
    rw [heval]
    refine examine_class_loop_isSome (_examine_class env dm n) env dm
      (env.modules path) path cls (env.modules path).classes [] [] m ?_ ?_
    · intro klass hk hname id mq hb
      exact ihsame klass hk hname id hb mq
    · intro klass hk hname parent hp pp pm pc hga origin hfs mq
      exact ihforeign klass hk hname parent hp pp pm pc hga origin hfs mq

/-- C8 amended witness: in the empty world the class C resolves within one
step (there are no classes, hence no references), and the examination with
one unit of fuel indeed returns. -/
theorem claim8_amended_witness :
    (_examine_class envEmpty _determine_match_avocado 1 pathW ("C") false).isSome =
      true := by
  refine claim8_amended envEmpty _determine_match_avocado 1 pathW ("C") false ?_
  refine ResolvesWithin.step 0 pathW ("C") ?_ ?_
  · intro klass hk
    simp [envEmpty, modEmpty] at hk
  · intro klass hk
    simp [envEmpty, modEmpty] at hk

/-! Lemmas about the driver loop of find_python_tests (claims C4, C5, C10). -/

/-- The same-module pass only ever grows the disabled set. -/
theorem same_module_dis_grows (examine : ExamineFn) (mp : List String) :
    ∀ (ps : List BaseRef) (info : List MethodInfo) (dis : List String) (m : Bool)
      (rem : List BaseRef) (i : List MethodInfo) (d : List String) (m' : Bool),
      _examine_same_module examine mp ps info dis m = some (rem, i, d, m') →
      ∀ x, x ∈ dis → x ∈ d := by
  intro ps
  induction ps with
  | nil =>
    intro info dis m rem i d m' h
    unfold _examine_same_module at h
    simp only [Option.some.injEq, Prod.mk.injEq] at h
    rcases h with ⟨-, -, hd, -⟩
    rw [← hd]
    exact fun x hx => hx
  | cons p rest ih =>
    intro info dis m rem i d m' h
    cases p with
    | name pc =>
      simp only [_examine_same_module] at h
      split at h
      · cases h
      · next i2 d2 m2 hx =>
        split at h
        · split at h
          · cases h
          · next hrec =>
            simp only [Option.some.injEq, Prod.mk.injEq] at h
            rcases h with ⟨-, -, hd, -⟩
            subst hd
            exact ih _ _ _ _ _ _ _ hrec
        · intro x hx
          exact ih _ _ _ _ _ _ _ h x (mem_setUnion_left d2 dis x hx)
    | attr v a =>
      simp only [_examine_same_module] at h
      split at h
      · cases h
      · next hrec =>
        simp only [Option.some.injEq, Prod.mk.injEq] at h
        rcases h with ⟨-, -, hd, -⟩
        subst hd
        exact ih _ _ _ _ _ _ _ hrec
    | unsupportedRef =>
      simp only [_examine_same_module] at h
      split at h
      · cases h
      · next hrec =>
        simp only [Option.some.injEq, Prod.mk.injEq] at h
        rcases h with ⟨-, -, hd, -⟩
        subst hd
        exact ih _ _ _ _ _ _ _ hrec

/-- The foreign-parents loop only ever grows the disabled set. -/
theorem foreign_loop_dis_grows (examine : ExamineFn) (env : DiscoveryEnv)
    (module : PyModuleData) (mp : List String)
    (merge : List MethodInfo → List MethodInfo → List MethodInfo) :
    ∀ (ps : List BaseRef) (info : List MethodInfo) (dis : List String) (m : Bool)
      (i : List MethodInfo) (d : List String) (m' : Bool),
      _foreign_parents_loop examine env module mp merge ps info dis m =
        some (i, d, m') →
      ∀ x, x ∈ dis → x ∈ d := by
  intro ps
  induction ps with
  | nil =>
    intro info dis m i d m' h
    unfold _foreign_parents_loop at h
    simp only [Option.some.injEq, Prod.mk.injEq] at h
    rcases h with ⟨-, hd, -⟩
    rw [← hd]
    exact fun x hx => hx
  | cons p rest ih =>
    intro info dis m i d m' h
    simp only [_foreign_parents_loop] at h
    split at h
    · exact ih _ _ _ _ _ _ h
    · split at h
      · exact ih _ _ _ _ _ _ h
      · split at h
        · cases h
        · next i2 d2 m2 hx =>
          split at h
          · exact ih _ _ _ _ _ _ h
          · intro x hx'
            exact ih _ _ _ _ _ _ h x (mem_setUnion_left d2 dis x hx')

/-- The step of a disabled class: the result is untouched and the class
name is added to the disabled set. -/
theorem step_disable (examine : ExamineFn) (env : DiscoveryEnv)
    (module : PyModuleData) (path : List String) (klass : ClassDef)
    (res : List (String × List MethodInfo)) (dis : List String)
    (h : klass.docstring.disable = true) :
    find_python_tests_step examine env module path klass res dis =
      some (res, setAdd dis klass.name) := by
  simp [find_python_tests_step, h]

/-- The step of an enabled (not disabled) class: its own methods are
recorded under its name and the disabled set is untouched. -/
theorem step_enable (examine : ExamineFn) (env : DiscoveryEnv)
    (module : PyModuleData) (path : List String) (klass : ClassDef)
    (res : List (String × List MethodInfo)) (dis : List String)
    (h1 : klass.docstring.disable = false) (h2 : klass.docstring.enable = true) :
    find_python_tests_step examine env module path klass res dis =
      some (odInsert res klass.name
        (get_methods_info klass.body klass.docstring.tags
          klass.docstring.requirements), dis) := by
  simp [find_python_tests_step, h1, h2]

/-- Every step of the driver loop only grows the disabled set. -/
theorem step_dis_grows (examine : ExamineFn) (env : DiscoveryEnv)
    (module : PyModuleData) (path : List String) (klass : ClassDef)
    (res : List (String × List MethodInfo)) (dis : List String)
    (r' : List (String × List MethodInfo)) (d' : List String)
    (h : find_python_tests_step examine env module path klass res dis =
      some (r', d')) :
    ∀ x, x ∈ dis → x ∈ d' := by
  simp only [find_python_tests_step] at h
  split at h
  · simp only [Option.some.injEq, Prod.mk.injEq] at h
    rcases h with ⟨-, hd⟩
    rw [← hd]
    exact fun x hx => mem_setAdd_of_mem _ _ _ hx
  · split at h
    · simp only [Option.some.injEq, Prod.mk.injEq] at h
      rcases h with ⟨-, hd⟩
      rw [← hd]
      exact fun x hx => hx
    · split at h
      · cases h
      · next rem i1 d1 m1 hsm =>
        split at h
        · cases h
        · next i2 d2 m2 hfl =>
          have h01 : ∀ x, x ∈ dis → x ∈ d1 :=
            same_module_dis_grows examine path klass.bases _ dis _ rem i1 d1 m1 hsm
          have h12 : ∀ x, x ∈ d1 → x ∈ d2 :=
            foreign_loop_dis_grows examine env module path _ rem i1 d1 m1 i2 d2 m2 hfl
          split at h
          · simp only [Option.some.injEq, Prod.mk.injEq] at h
            rcases h with ⟨-, hd⟩
            rw [← hd]
            exact fun x hx => h12 x (h01 x hx)
          · simp only [Option.some.injEq, Prod.mk.injEq] at h
            rcases h with ⟨-, hd⟩
            rw [← hd]
            exact fun x hx => h12 x (h01 x hx)

/-- A step of the driver loop can only touch the result entry of its own
class name. -/
theorem step_lookup_ne (examine : ExamineFn) (env : DiscoveryEnv)
    (module : PyModuleData) (path : List String) (klass : ClassDef)
    (res : List (String × List MethodInfo)) (dis : List String)
    (r' : List (String × List MethodInfo)) (d' : List String) (k : String)
    (hne : klass.name ≠ k)
    (h : find_python_tests_step examine env module path klass res dis =
      some (r', d')) :
    List.lookup k r' = List.lookup k res := by
  simp only [find_python_tests_step] at h
  split at h
  · simp only [Option.some.injEq, Prod.mk.injEq] at h
    rcases h with ⟨hr, -⟩
    rw [← hr]
  · split at h
    · simp only [Option.some.injEq, Prod.mk.injEq] at h
      rcases h with ⟨hr, -⟩
      rw [← hr]
      exact lookup_odInsert_ne res klass.name k _ hne
    · split at h
      · cases h
      · split at h
        · cases h
        · split at h
          · simp only [Option.some.injEq, Prod.mk.injEq] at h
            rcases h with ⟨hr, -⟩
            rw [← hr]
            exact lookup_odInsert_ne res klass.name k _ hne
          · simp only [Option.some.injEq, Prod.mk.injEq] at h
            rcases h with ⟨hr, -⟩
            rw [← hr]

/-- Every key of the result after a step either was a key before or is the
name of the stepped class, the class then not being disabled. -/
theorem step_keys (examine : ExamineFn) (env : DiscoveryEnv)
    (module : PyModuleData) (path : List String) (klass : ClassDef)
    (res : List (String × List MethodInfo)) (dis : List String)
    (r' : List (String × List MethodInfo)) (d' : List String)
    (h : find_python_tests_step examine env module path klass res dis =
      some (r', d')) :
    ∀ kx, kx ∈ r'.map Prod.fst → kx ∈ res.map Prod.fst ∨
      (kx = klass.name ∧ klass.docstring.disable = false) := by
  simp only [find_python_tests_step] at h
  split at h
  · simp only [Option.some.injEq, Prod.mk.injEq] at h
    rcases h with ⟨hr, -⟩
    rw [← hr]
    exact fun kx hk => Or.inl hk
  · next hnd =>
    have hnd' : klass.docstring.disable = false := Bool.eq_false_iff.mpr hnd
    split at h
    · simp only [Option.some.injEq, Prod.mk.injEq] at h
      rcases h with ⟨hr, -⟩
      rw [← hr]
      intro kx hk
      rcases keys_odInsert res klass.name kx _ hk with h' | h'
      · exact Or.inl h'
      · exact Or.inr ⟨h', hnd'⟩
    · split at h
      · cases h
      · split at h
        · cases h
        · split at h
          · simp only [Option.some.injEq, Prod.mk.injEq] at h
            rcases h with ⟨hr, -⟩
            rw [← hr]
            intro kx hk
            rcases keys_odInsert res klass.name kx _ hk with h' | h'
            · exact Or.inl h'
            · exact Or.inr ⟨h', hnd'⟩
          · simp only [Option.some.injEq, Prod.mk.injEq] at h
            rcases h with ⟨hr, -⟩
            rw [← hr]
            exact fun kx hk => Or.inl hk

/-- The driver loop over an appended class list runs the first part and
feeds its accumulators into the second part. -/
theorem loop_append (examine : ExamineFn) (env : DiscoveryEnv)
    (module : PyModuleData) (path : List String) :
    ∀ (ks1 ks2 : List ClassDef) (res : List (String × List MethodInfo))
      (dis : List String),
      find_python_tests_loop examine env module path (ks1 ++ ks2) res dis =
        (find_python_tests_loop examine env module path ks1 res dis).bind
          (fun rd => find_python_tests_loop examine env module path ks2 rd.1 rd.2) := by
  intro ks1
  induction ks1 with
  | nil => intro ks2 res dis; rfl
  | cons klass rest ih =>
    intro ks2 res dis
    rw [List.cons_append]
    cases hstep : find_python_tests_step examine env module path klass res dis with
    | none =>
      have h1 : find_python_tests_loop examine env module path
          (klass :: (rest ++ ks2)) res dis = none := by
        simp only [find_python_tests_loop, hstep]
      have h2 : find_python_tests_loop examine env module path (klass :: rest) res dis =
          none := by
        simp only [find_python_tests_loop, hstep]
      rw [h1, h2]
      rfl
    | some rd =>
      obtain ⟨r, d⟩ := rd
      have h1 : find_python_tests_loop examine env module path
          (klass :: (rest ++ ks2)) res dis =
          find_python_tests_loop examine env module path (rest ++ ks2) r d := by
        simp only [find_python_tests_loop, hstep]
      have h2 : find_python_tests_loop examine env module path (klass :: rest) res dis =
          find_python_tests_loop examine env module path rest r d := by
        simp only [find_python_tests_loop, hstep]
      rw [h1, h2]
      exact ih ks2 r d

/-- The driver loop only grows the disabled set. -/
theorem loop_dis_grows (examine : ExamineFn) (env : DiscoveryEnv)
    (module : PyModuleData) (path : List String) :
    ∀ (ks : List ClassDef) (res : List (String × List MethodInfo))
      (dis : List String) (res' : List (String × List MethodInfo))
      (dis' : List String),
      find_python_tests_loop examine env module path ks res dis = some (res', dis') →
      ∀ x, x ∈ dis → x ∈ dis' := by
  intro ks
  induction ks with
  | nil =>
    intro res dis res' dis' h
    unfold find_python_tests_loop at h
    simp only [Option.some.injEq, Prod.mk.injEq] at h
    rcases h with ⟨-, hd⟩
    rw [← hd]
    exact fun x hx => hx
  | cons klass rest ih =>
    intro res dis res' dis' h
    simp only [find_python_tests_loop] at h
    split at h
    · cases h
    · next r d hstep =>
      intro x hx
      exact ih r d res' dis' h x
        (step_dis_grows examine env module path klass res dis r d hstep x hx)

/-- A driver loop over classes none of which bears the key leaves the
entry under that key unchanged. -/
theorem loop_lookup_ne (examine : ExamineFn) (env : DiscoveryEnv)
    (module : PyModuleData) (path : List String) (k : String) :
    ∀ (ks : List ClassDef) (res : List (String × List MethodInfo))
      (dis : List String) (res' : List (String × List MethodInfo))
      (dis' : List String),
      (∀ k2, k2 ∈ ks → k2.name ≠ k) →
      find_python_tests_loop examine env module path ks res dis = some (res', dis') →
      List.lookup k res' = List.lookup k res := by
  intro ks
  induction ks with
  | nil =>
    intro res dis res' dis' _ h
    unfold find_python_tests_loop at h
    simp only [Option.some.injEq, Prod.mk.injEq] at h
    rcases h with ⟨hr, -⟩
    rw [← hr]
  | cons klass rest ih =>
    intro res dis res' dis' hname h
    simp only [find_python_tests_loop] at h
    split at h
    · cases h
    · next r d hstep =>
      have h1 : List.lookup k res' = List.lookup k r :=
        ih r d res' dis' (fun k2 hk => hname k2 (List.mem_cons_of_mem _ hk)) h
      have h2 : List.lookup k r = List.lookup k res :=
        step_lookup_ne examine env module path klass res dis r d k
          (hname klass (List.mem_cons_self _ _)) hstep
      rw [h1, h2]

/-- Every key of the driver loop's final result either was a key of the
initial result or is the name of a processed class that is not disabled. -/
theorem loop_keys (examine : ExamineFn) (env : DiscoveryEnv)
    (module : PyModuleData) (path : List String) :
    ∀ (ks : List ClassDef) (res : List (String × List MethodInfo))
      (dis : List String) (res' : List (String × List MethodInfo))
      (dis' : List String),
      find_python_tests_loop examine env module path ks res dis = some (res', dis') →
      ∀ kx, kx ∈ res'.map Prod.fst → kx ∈ res.map Prod.fst ∨
        ∃ k2, k2 ∈ ks ∧ k2.name = kx ∧ k2.docstring.disable = false := by
  intro ks
  induction ks with
  | nil =>
    intro res dis res' dis' h
    unfold find_python_tests_loop at h
    simp only [Option.some.injEq, Prod.mk.injEq] at h
    rcases h with ⟨hr, -⟩
    rw [← hr]
    exact fun kx hk => Or.inl hk
  | cons klass rest ih =>
    intro res dis res' dis' h
    simp only [find_python_tests_loop] at h
    split at h
    · cases h
    · next r d hstep =>
      intro kx hk
      rcases ih r d res' dis' h kx hk with h' | ⟨k2, hk2, hn, hd⟩
      · rcases step_keys examine env module path klass res dis r d hstep kx h' with
          h'' | ⟨hn, hd⟩
        · exact Or.inl h''
        · exact Or.inr ⟨klass, List.mem_cons_self _ _, hn.symm, hd⟩
      · exact Or.inr ⟨k2, List.mem_cons_of_mem _ hk2, hn, hd⟩

/-- A disabled class of the processed list always ends in the disabled
set of the driver loop. -/
theorem loop_disable_mem (examine : ExamineFn) (env : DiscoveryEnv)
    (module : PyModuleData) (path : List String) (klass : ClassDef)
    (hdis : klass.docstring.disable = true) :
    ∀ (ks : List ClassDef) (res : List (String × List MethodInfo))
      (dis : List String) (res' : List (String × List MethodInfo))
      (dis' : List String),
      klass ∈ ks →
      find_python_tests_loop examine env module path ks res dis = some (res', dis') →
      klass.name ∈ dis' := by
  intro ks
  induction ks with
  | nil => intro res dis res' dis' hm; cases hm
  | cons k0 rest ih =>
    intro res dis res' dis' hm h
    rcases List.mem_cons.mp hm with hm' | hm'
    · subst hm'
      rw [show find_python_tests_loop examine env module path (klass :: rest) res dis =
          find_python_tests_loop examine env module path rest res
            (setAdd dis klass.name) from by
        simp only [find_python_tests_loop,
          step_disable examine env module path klass res dis hdis]] at h
      exact loop_dis_grows examine env module path rest res _ res' dis' h
        klass.name (mem_setAdd_self dis klass.name)
    · simp only [find_python_tests_loop] at h
      split at h
      · cases h
      · next r d hstep =>
        exact ih r d res' dis' hm' h

/-- C4: a top-level class whose docstring carries enable (and no disable)
is recorded with exactly its own locally declared test-prefixed methods,
computed by get_methods_info from its own body and docstring alone — no
ancestor methods, no dependence on the hierarchy resolver — provided no
other top-level class of the file shares its name. -/
theorem claim4 (env : DiscoveryEnv) (dm : DetermineMatch) (fuel : Nat)
    (path : List String) (klass : ClassDef) (pre post : List ClassDef)
    (res : List (String × List MethodInfo)) (dis : List String)
    (hsplit : (env.modules path).classes = pre ++ klass :: post)
    (hpre : ∀ k2, k2 ∈ pre → k2.name ≠ klass.name)
    (hpost : ∀ k2, k2 ∈ post → k2.name ≠ klass.name)
    (hdis : klass.docstring.disable = false)
    (hen : klass.docstring.enable = true)
    (hrun : find_python_tests env dm fuel path = some (res, dis)) :
    List.lookup klass.name res =
      some (get_methods_info klass.body klass.docstring.tags
        klass.docstring.requirements) := by
  have hrun' : find_python_tests_loop (_examine_class env dm fuel) env
      (env.modules path) path (env.modules path).classes [] [] = some (res, dis) :=
    hrun
  rw [hsplit, loop_append] at hrun'
  cases hpre' : find_python_tests_loop (_examine_class env dm fuel) env
      (env.modules path) path pre [] [] with
  | none =>
    rw [hpre'] at hrun'
    cases hrun'
  | some rd =>
    obtain ⟨r1, d1⟩ := rd
    rw [hpre'] at hrun'
    have hrun2 : find_python_tests_loop (_examine_class env dm fuel) env
        (env.modules path) path (klass :: post) r1 d1 = some (res, dis) := hrun'
    rw [show find_python_tests_loop (_examine_class env dm fuel) env
        (env.modules path) path (klass :: post) r1 d1 =
        find_python_tests_loop (_examine_class env dm fuel) env
          (env.modules path) path post
          (odInsert r1 klass.name (get_methods_info klass.body
            klass.docstring.tags klass.docstring.requirements)) d1 from by
      simp only [find_python_tests_loop,
        step_enable (_examine_class env dm fuel) env (env.modules path) path
          klass r1 d1 hdis hen]] at hrun2
    have hl := loop_lookup_ne (_examine_class env dm fuel) env (env.modules path)
      path klass.name post _ d1 res dis hpost hrun2
    rw [hl]
    exact lookup_odInsert_self r1 klass.name _

/-- C4 witness: the file with the single enabled class Foo (class tag t1,
method test_one) maps Foo to exactly that method with exactly those
tags. -/
theorem claim4_witness :
    List.lookup ("Foo") [(("Foo"), [(("test_one"), ["t1"], [])])] =
      some (get_methods_info klassW4.body klassW4.docstring.tags
        klassW4.docstring.requirements) := by
  exact claim4 envW4 _determine_match_avocado 1 pathWD klassW4 [] []
    [(("Foo"), [(("test_one"), ["t1"], [])])] [] rfl
    (fun k2 hk => absurd hk (List.not_mem_nil k2))
    (fun k2 hk => absurd hk (List.not_mem_nil k2))
    rfl rfl (by decide)

/-- C5: a top-level class whose docstring carries disable lands in the
disabled set and its name is not a key of the result mapping, regardless
of its base-class list (here every same-named class of the file is also
disabled; names are unique in well-formed files, the spec leaves duplicate
names open). -/
theorem claim5 (env : DiscoveryEnv) (dm : DetermineMatch) (fuel : Nat)
    (path : List String) (klass : ClassDef)
    (res : List (String × List MethodInfo)) (dis : List String)
    (hmem : klass ∈ (env.modules path).classes)
    (hdis : klass.docstring.disable = true)
    (hothers : ∀ k2, k2 ∈ (env.modules path).classes → k2.name = klass.name →
      k2.docstring.disable = true)
    (hrun : find_python_tests env dm fuel path = some (res, dis)) :
    klass.name ∈ dis ∧ klass.name ∉ res.map Prod.fst := by
  have hrun' : find_python_tests_loop (_examine_class env dm fuel) env
      (env.modules path) path (env.modules path).classes [] [] = some (res, dis) :=
    hrun
  constructor
  · exact loop_disable_mem (_examine_class env dm fuel) env (env.modules path)
      path klass hdis (env.modules path).classes [] [] res dis hmem hrun'
  · intro hk
    rcases loop_keys (_examine_class env dm fuel) env (env.modules path) path
        (env.modules path).classes [] [] res dis hrun' klass.name hk with
      h' | ⟨k2, hk2, hn, hd⟩
    · simp at h'
    · rw [hothers k2 hk2 hn] at hd
      cases hd

/-- C5 witness: the file with the single disabled class Foo (which even
has a base-class reference) yields the disabled set containing Foo and an
empty result mapping. -/
theorem claim5_witness :
    ("Foo" : String) ∈ (["Foo"] : List String) ∧
      ("Foo" : String) ∉ (([] : List (String × List MethodInfo)).map Prod.fst) := by
  exact claim5 envW5 _determine_match_avocado 1 pathWD klassW5 [] ["Foo"]
    (by decide) rfl (by decide) (by decide)

/-- C10: when a docstring carries both disable and enable, disable wins:
the class goes into the disabled set and never into the result mapping,
because find_python_tests checks the disable directive first and skips the
class before the enable branch can record it. -/
theorem claim10 (env : DiscoveryEnv) (dm : DetermineMatch) (fuel : Nat)
    (path : List String) (klass : ClassDef)
    (res : List (String × List MethodInfo)) (dis : List String)
    (hmem : klass ∈ (env.modules path).classes)
    (hdis : klass.docstring.disable = true)
    (hen : klass.docstring.enable = true)
    (hothers : ∀ k2, k2 ∈ (env.modules path).classes → k2.name = klass.name →
      k2.docstring.disable = true)
    (hrun : find_python_tests env dm fuel path = some (res, dis)) :
    klass.name ∈ dis ∧ klass.name ∉ res.map Prod.fst := by
  have hrun' : find_python_tests_loop (_examine_class env dm fuel) env
      (env.modules path) path (env.modules path).classes [] [] = some (res, dis) :=
    hrun
  constructor
  · exact loop_disable_mem (_examine_class env dm fuel) env (env.modules path)
      path klass hdis (env.modules path).classes [] [] res dis hmem hrun'
  · intro hk
    rcases loop_keys (_examine_class env dm fuel) env (env.modules path) path
        (env.modules path).classes [] [] res dis hrun' klass.name hk with
      h' | ⟨k2, hk2, hn, hd⟩
    · simp at h'
    · rw [hothers k2 hk2 hn] at hd
      cases hd

/-- C10 witness: the class Bar carrying both directives ends in the
disabled set and not in the result mapping; its method test_x is not
collected. -/
theorem claim10_witness :
    ("Bar" : String) ∈ (["Bar"] : List String) ∧
      ("Bar" : String) ∉ (([] : List (String × List MethodInfo)).map Prod.fst) := by
  exact claim10 envW10 _determine_match_avocado 1 pathWD klassW10 [] ["Bar"]
    (by decide) rfl rfl (by decide) (by decide)

/-! Origin of every recorded method entry (claim C3, amended). -/

/-- Entries produced by get_methods_info for a class of the world are
well-formed. -/
theorem goodinfo_get_methods_info (env : DiscoveryEnv) (p : List String)
    (klass : ClassDef) (hk : klass ∈ (env.modules p).classes) (mi : MethodInfo)
    (h : mi ∈ get_methods_info klass.body klass.docstring.tags
      klass.docstring.requirements) :
    GoodInfo env mi := by
  obtain ⟨f, hf, he⟩ := get_methods_info_mem _ _ _ _ h
  exact ⟨p, klass, f, hk, hf, he⟩

/-- _extend_test_list preserves well-formedness of the entries. -/
theorem infoGood_extend (env : DiscoveryEnv) (cur new : List MethodInfo)
    (hc : InfoGood env cur) (hn : InfoGood env new) :
    InfoGood env (_extend_test_list cur new) := by
  intro mi hmi
  rcases mem_extend_test_list new cur mi hmi with h | h
  · exact hc mi h
  · exact hn mi h

/-- Plain list extension preserves well-formedness of the entries. -/
theorem infoGood_append (env : DiscoveryEnv) (cur new : List MethodInfo)
    (hc : InfoGood env cur) (hn : InfoGood env new) :
    InfoGood env (cur ++ new) := by
  intro mi hmi
  rcases List.mem_append.mp hmi with h | h
  · exact hc mi h
  · exact hn mi h

/-- The same-module pass returns only well-formed entries when it starts
from well-formed entries and recurses through a well-behaved examiner. -/
theorem same_module_good (env : DiscoveryEnv) (examine : ExamineFn)
    (mp : List String) (hex : ExamineGood env examine) :
    ∀ (ps : List BaseRef) (info : List MethodInfo) (dis : List String) (m : Bool)
      (rem : List BaseRef) (i : List MethodInfo) (d : List String) (m' : Bool),
      InfoGood env info →
      _examine_same_module examine mp ps info dis m = some (rem, i, d, m') →
      InfoGood env i := by
  intro ps
  induction ps with
  | nil =>
    intro info dis m rem i d m' hinfo h
    unfold _examine_same_module at h
    simp only [Option.some.injEq, Prod.mk.injEq] at h
    rcases h with ⟨-, hi, -, -⟩
    rw [← hi]
    exact hinfo
  | cons p rest ih =>
    intro info dis m rem i d m' hinfo h
    cases p with
    | name pc =>
      simp only [_examine_same_module] at h
      split at h
      · cases h
      · next i2 d2 m2 hx =>
        split at h
        · split at h
          · cases h
          · next hrec =>
            simp only [Option.some.injEq, Prod.mk.injEq] at h
            rcases h with ⟨-, hi, -, -⟩
            rw [← hi]
            exact ih _ _ _ _ _ _ _ hinfo hrec
        · exact ih _ _ _ _ _ _ _
            (infoGood_extend env info i2 hinfo (hex _ _ _ _ _ _ hx)) h
    | attr v a =>
      simp only [_examine_same_module] at h
      split at h
      · cases h
      · next hrec =>
        simp only [Option.some.injEq, Prod.mk.injEq] at h
        rcases h with ⟨-, hi, -, -⟩
        rw [← hi]
        exact ih _ _ _ _ _ _ _ hinfo hrec
    | unsupportedRef =>
      simp only [_examine_same_module] at h
      split at h
      · cases h
      · next hrec =>
        simp only [Option.some.injEq, Prod.mk.injEq] at h
        rcases h with ⟨-, hi, -, -⟩
        rw [← hi]
        exact ih _ _ _ _ _ _ _ hinfo hrec

/-- The foreign-parents loop returns only well-formed entries, for any
merge that preserves them. -/
theorem foreign_loop_good (env : DiscoveryEnv) (examine : ExamineFn)
    (module : PyModuleData) (mp : List String)
    (merge : List MethodInfo → List MethodInfo → List MethodInfo)
    (hex : ExamineGood env examine)
    (hmerge : ∀ cur new, InfoGood env cur → InfoGood env new →
      InfoGood env (merge cur new)) :
    ∀ (ps : List BaseRef) (info : List MethodInfo) (dis : List String) (m : Bool)
      (i : List MethodInfo) (d : List String) (m' : Bool),
      InfoGood env info →
      _foreign_parents_loop examine env module mp merge ps info dis m =
        some (i, d, m') →
      InfoGood env i := by
  intro ps
  induction ps with
  | nil =>
    intro info dis m i d m' hinfo h
    unfold _foreign_parents_loop at h
    simp only [Option.some.injEq, Prod.mk.injEq] at h
    rcases h with ⟨hi, -, -⟩
    rw [← hi]
    exact hinfo
  | cons p rest ih =>
    intro info dis m i d m' hinfo h
    simp only [_foreign_parents_loop] at h
    split at h
    · exact ih _ _ _ _ _ _ hinfo h
    · split at h
      · exact ih _ _ _ _ _ _ hinfo h
      · split at h
        · cases h
        · next i2 d2 m2 hx =>
          split at h
          · exact ih _ _ _ _ _ _ hinfo h
          · exact ih _ _ _ _ _ _
              (hmerge info i2 hinfo (hex _ _ _ _ _ _ hx)) h

/-- The class loop of _examine_class returns only well-formed entries. -/
theorem examine_class_loop_good (env : DiscoveryEnv) (examine : ExamineFn)
    (dm : DetermineMatch) (module : PyModuleData) (path : List String)
    (cls : String) (hex : ExamineGood env examine) :
    ∀ (ks : List ClassDef) (info : List MethodInfo) (dis : List String) (m : Bool)
      (i : List MethodInfo) (d : List String) (m' : Bool),
      (∀ klass, klass ∈ ks → klass ∈ (env.modules path).classes) →
      InfoGood env info →
      _examine_class_loop examine env dm module path cls ks info dis m =
        some (i, d, m') →
      InfoGood env i := by
  intro ks
  induction ks with
  | nil =>
    intro info dis m i d m' _ hinfo h
    unfold _examine_class_loop at h
    simp only [Option.some.injEq, Prod.mk.injEq] at h
    rcases h with ⟨hi, -, -⟩
    rw [← hi]
    exact hinfo
  | cons klass rest ih =>
    intro info dis m i d m' hks hinfo h
    have hksW := fun k hk => hks k (List.mem_cons_of_mem _ hk)
    simp only [_examine_class_loop] at h
    split at h
    · exact ih _ _ _ _ _ _ hksW hinfo h
    · split at h
      · cases h
      · next rem i1 d1 m1 hsm =>
        have hi1 : InfoGood env i1 :=
          same_module_good env examine path hex klass.bases _ dis _ rem i1 d1 m1
            (fun mi hmi => goodinfo_get_methods_info env path klass
              (hks klass (List.mem_cons_self _ _)) mi hmi) hsm
        split at h
        · cases h
        · next i2 d2 m2 hfl =>
          have hi2 : InfoGood env i2 :=
            foreign_loop_good env examine module path _extend_test_list hex
              (infoGood_extend env) rem i1 d1 m1 i2 d2 m2 hi1 hfl
          exact ih _ _ _ _ _ _ hksW hi2 h

/-- Every successful examination returns only well-formed entries. -/
theorem examine_class_good (env : DiscoveryEnv) (dm : DetermineMatch) :
    ∀ (fuel : Nat), ExamineGood env (_examine_class env dm fuel) := by
  intro fuel
  induction fuel with
  | zero =>
    intro p c m i d m' h
    cases h
  | succ fuel ih =>
    intro p c m i d m' h
    have h' : _examine_class_loop (_examine_class env dm fuel) env dm
        (env.modules p) p c (env.modules p).classes [] [] m = some (i, d, m') := h
    exact examine_class_loop_good env (_examine_class env dm fuel) dm
      (env.modules p) p c ih (env.modules p).classes [] [] m i d m'
      (fun k hk => hk) (fun mi hmi => absurd hmi (List.not_mem_nil mi)) h'

/-- A step of the driver loop keeps every value list of the result mapping
well-formed. -/
theorem step_good (env : DiscoveryEnv) (examine : ExamineFn)
    (module : PyModuleData) (path : List String) (klass : ClassDef)
    (res : List (String × List MethodInfo)) (dis : List String)
    (r' : List (String × List MethodInfo)) (d' : List String)
    (hex : ExamineGood env examine)
    (hklass : klass ∈ (env.modules path).classes)
    (hres : ResGood env res)
    (h : find_python_tests_step examine env module path klass res dis =
      some (r', d')) :
    ResGood env r' := by
  have hown : InfoGood env (get_methods_info klass.body klass.docstring.tags
      klass.docstring.requirements) :=
    fun mi hmi => goodinfo_get_methods_info env path klass hklass mi hmi
  simp only [find_python_tests_step] at h
  split at h
  · simp only [Option.some.injEq, Prod.mk.injEq] at h
    rcases h with ⟨hr, -⟩
    rw [← hr]
    exact hres
  · split at h
    · simp only [Option.some.injEq, Prod.mk.injEq] at h
      rcases h with ⟨hr, -⟩
      rw [← hr]
      intro kv hkv
      rcases mem_values_odInsert res klass.name _ kv hkv with h' | h'
      · exact hres kv h'
      · rw [h']
        exact hown
    · split at h
      · cases h
      · next rem i1 d1 m1 hsm =>
        have hi1 : InfoGood env i1 :=
          same_module_good env examine path hex klass.bases _ dis _ rem i1 d1 m1
            hown hsm
        split at h
        · cases h
        · next i2 d2 m2 hfl =>
          have hi2 : InfoGood env i2 :=
            foreign_loop_good env examine module path _ hex
              (infoGood_append env) rem i1 d1 m1 i2 d2 m2 hi1 hfl
          split at h
          · simp only [Option.some.injEq, Prod.mk.injEq] at h
            rcases h with ⟨hr, -⟩
            rw [← hr]
            intro kv hkv
            rcases mem_values_odInsert res klass.name _ kv hkv with h' | h'
            · exact hres kv h'
            · rw [h']
              exact hi2
          · simp only [Option.some.injEq, Prod.mk.injEq] at h
            rcases h with ⟨hr, -⟩
            rw [← hr]
            exact hres

/-- The driver loop keeps every value list of the result mapping
well-formed. -/
theorem loop_good (env : DiscoveryEnv) (examine : ExamineFn)
    (module : PyModuleData) (path : List String) (hex : ExamineGood env examine) :
    ∀ (ks : List ClassDef) (res : List (String × List MethodInfo))
      (dis : List String) (res' : List (String × List MethodInfo))
      (dis' : List String),
      (∀ k, k ∈ ks → k ∈ (env.modules path).classes) →
      ResGood env res →
      find_python_tests_loop examine env module path ks res dis = some (res', dis') →
      ResGood env res' := by
  intro ks
  induction ks with
  | nil =>
    intro res dis res' dis' _ hres h
    unfold find_python_tests_loop at h
    simp only [Option.some.injEq, Prod.mk.injEq] at h
    rcases h with ⟨hr, -⟩
    rw [← hr]
    exact hres
  | cons klass rest ih =>
    intro res dis res' dis' hks hres h
    simp only [find_python_tests_loop] at h
    split at h
    · cases h
    · next r d hstep =>
      exact ih r d res' dis'
        (fun k hk => hks k (List.mem_cons_of_mem _ hk))
        (step_good env examine module path klass res dis r d hex
          (hks klass (List.mem_cons_self _ _)) hres hstep) h

/-- C3 amended: every method entry of a discovery result originates in a
function definition of a class of the scanned world; its recorded name is
that function's name, and its final tag set is a superset of the
function's own docstring tags and of the class-level tags of the class
whose body declares the function.  Class-level tags of other resolved
ancestors are not propagated into it (refuted separately). -/
theorem claim3_amended (env : DiscoveryEnv) (dm : DetermineMatch) (fuel : Nat)
    (path : List String) (res : List (String × List MethodInfo))
    (dis : List String) (cname : String) (infos : List MethodInfo)
    (mi : MethodInfo)
    (hrun : find_python_tests env dm fuel path = some (res, dis))
    (hin : (cname, infos) ∈ res) (hmi : mi ∈ infos) :
    ∃ (p : List String) (klass : ClassDef) (f : FunctionDef),
      klass ∈ (env.modules p).classes ∧ Stmt.func f ∈ klass.body ∧
      mi.1 = f.name ∧
      (∀ t, t ∈ f.docstring.tags → t ∈ mi.2.1) ∧
      (∀ t, t ∈ klass.docstring.tags → t ∈ mi.2.1) := by
  have hrun' : find_python_tests_loop (_examine_class env dm fuel) env
      (env.modules path) path (env.modules path).classes [] [] = some (res, dis) :=
    hrun
  have hres : ResGood env res :=
    loop_good env (_examine_class env dm fuel) (env.modules path) path
      (examine_class_good env dm fuel) (env.modules path).classes [] [] res dis
      (fun k hk => hk) (fun kv hkv => absurd hkv (List.not_mem_nil kv)) hrun'
  obtain ⟨p, klass, f, hk, hf, he⟩ := hres (cname, infos) hin mi hmi
  refine ⟨p, klass, f, hk, hf, ?_, ?_, ?_⟩
  · rw [he]
  · intro t ht
    rw [he]
    show t ∈ tagUnion f.docstring.tags klass.docstring.tags
    exact mem_tagUnion_left _ _ _ ht
  · intro t ht
    rw [he]
    show t ∈ tagUnion f.docstring.tags klass.docstring.tags
    exact mem_tagUnion_right _ _ _ ht

/-- C3 amended witness: the inherited entry test_b of the ancestor-tag
scenario originates in Base's function test_b; its tag set contains the
function's docstring tags (none) and Base's class-level tag base. -/
theorem claim3_amended_witness :
    ∃ (p : List String) (klass : ClassDef) (f : FunctionDef),
      klass ∈ (envC3.modules p).classes ∧ Stmt.func f ∈ klass.body ∧
      ("test_b" : String) = f.name ∧
      (∀ t, t ∈ f.docstring.tags → t ∈ (["base"] : List String)) ∧
      (∀ t, t ∈ klass.docstring.tags → t ∈ (["base"] : List String)) := by
  exact claim3_amended envC3 _determine_match_avocado 5 pathC3
    [(("Base"), [(("test_b"), ["base"], [])]),
     (("Child"), [(("test_c"), [], []), (("test_b"), ["base"], [])])] []
    ("Base") [(("test_b"), ["base"], [])] (("test_b"), ["base"], [])
    (by decide) (by decide) (by decide)
